import Mathlib

/-!
# Verification of the OwlDB core against its specification

This file shallowly embeds the parts of the OwlDB document database that the
claims under scrutiny concern:

* the concurrent ordered map (`skiplist` package), embedded as a sequential
  state-passing model: the state of the Go structure is captured by the
  level-0 chain of interior nodes together with each node's `topLevel`
  (the chain at level `l` of the Go structure is exactly the sub-chain of
  nodes whose `topLevel` is at least `l`, because `Upsert` links a node at
  levels `0..topLevel` and `Remove` unlinks it at all of them);
* the JSON patch engine (`patcher` package) over a JSON value tree, plus a
  model of Go's slice/backing-array semantics for the `append` calls in the
  `ArrayRemove` branch;
* the HTTP-facing operations of the `collection` and `collectionholder`
  packages, with `net/http` response writers modeled as a record in which
  the first `WriteHeader` wins (as in Go, later calls are superfluous).

Concurrency itself is out of scope of the claims treated here; the model is
the sequential semantics of the code, in which every linked node is fully
linked and unmarked at operation boundaries, the retry loops of `Upsert`,
`Remove` and `Query` run once, and the spin on `fullyLinked` never spins.
-/

set_option linter.unusedSectionVars false

namespace OwlDB

/-! ## Go strings

Go strings are byte sequences; `<` on Go strings is lexicographic byte
comparison.  We model them as lists of bytes (`List Nat`), whose `LinearOrder`
instance is exactly this lexicographic order. -/

/-- A Go string: its sequence of bytes. -/
abbrev GoStr := List Nat

/-- `STRING_MIN` from `skiplist.go`: the empty string. -/
def STRING_MIN : GoStr := []

/-- `STRING_MAX` from `skiplist.go`: `string(rune(256))`, whose UTF-8
encoding is the two bytes `0xC4 0x80`. -/
def STRING_MAX : GoStr := [196, 128]

/-- The bytes of an ASCII Lean string literal (all claims use ASCII names,
for which code points and UTF-8 bytes agree). -/
def asciiBytes (s : String) : GoStr := s.data.map Char.toNat

/-! ## The skip list (`skiplist/skiplist.go`) -/

/-- A node of the skip list: `key`, `value` and the top level at which it is
linked.  The `marked`/`fullyLinked` flags and the per-node mutex of the Go
node matter only to concurrent interleavings; at operation boundaries of the
sequential semantics every linked node is fully linked and unmarked, so they
are not part of the state. -/
structure SLNode (K V : Type) where
  key : K
  value : V
  topLevel : Nat
deriving DecidableEq, Repr

/-- The skip list state.  `nodes` is the level-0 chain of interior nodes
(between the head and tail sentinels) in linking order; `minKey`/`maxKey` are
the sentinel keys fixed by `New`; `maxLevel` is the `max_level` argument of
`New` (the head's `topLevel` is `maxLevel - 1`); `totalOps` is the operation
counter (an `atomic.Int32` in Go; the claims never exercise its overflow). -/
structure SkipList (K V : Type) where
  minKey : K
  maxKey : K
  maxLevel : Nat
  nodes : List (SLNode K V)
  totalOps : Int
deriving DecidableEq, Repr

variable {K V E W : Type} [LinearOrder K] [Inhabited V]

/-- `skiplist.New`: an empty list holding only the two sentinels. -/
def SkipList.new (minKey maxKey : K) (maxLevel : Nat) : SkipList K V :=
  ⟨minKey, maxKey, maxLevel, [], 0⟩

/-- The tail sentinel as a node: key `maxKey`, zero value, `topLevel` 0
(it is linked at every level, but its stored `topLevel` field is 0). -/
def SkipList.tailNode (s : SkipList K V) : SLNode K V :=
  ⟨s.maxKey, default, 0⟩

/-- The interior nodes present in the chain at level `l`: exactly those whose
`topLevel` is at least `l`. -/
def SkipList.chainAt (s : SkipList K V) (l : Nat) : List (SLNode K V) :=
  s.nodes.filter (fun n => decide (l ≤ n.topLevel))

/-- The whole chain at level `l` strictly after the head: the interior nodes
of that level followed by the tail sentinel.  After the tail the `next`
pointer is `nil`. -/
def SkipList.levelList (s : SkipList K V) (l : Nat) : List (SLNode K V) :=
  s.chainAt l ++ [s.tailNode]

/-- The inner loop of `find` at one level: `for key > curr.key { pred = curr;
curr = pred.next[level].Load() }`.  The argument list is the chain from the
current node on; running off its end means `curr` has become `nil` and the
loop condition `key > curr.key` dereferences a nil pointer, which the model
reports as `none`. -/
def walkLevel (key : K) : List (SLNode K V) → Option (SLNode K V)
  | [] => none
  | c :: rest => if c.key < key then walkLevel key rest else some c

/-- The successor `succs[l]` recorded by `find` at level `l`.  The Go walk at
level `l` resumes from the predecessor found at level `l + 1`; since the
chain at level `l + 1` is a sub-chain of the chain at level `l` and chains
are sorted, the successor found is the same as when walking from the head,
which is how the model phrases it. -/
def SkipList.succAt (s : SkipList K V) (key : K) (l : Nat) : Option (SLNode K V) :=
  walkLevel key (s.levelList l)

/-- The `foundLevel` computation of `find`, descending from level `l`:
the highest level whose successor's key equals `key` (`some none` plays the
role of Go's `-1`).  The outer `none` reports a nil dereference during the
walk.  The Go loop always descends to level 0 recording predecessors; the
model stops as soon as `foundLevel` is set, which does not change any of the
values `find` returns. -/
def SkipList.foundLevelAux (s : SkipList K V) (key : K) : Nat → Option (Option Nat)
  | 0 =>
    match s.succAt key 0 with
    | none => none
    | some c => some (if c.key = key then some 0 else none)
  | l + 1 =>
    match s.succAt key (l + 1) with
    | none => none
    | some c =>
      if c.key = key then some (some (l + 1)) else s.foundLevelAux key l

/-- `SkipList.find` (the unexported helper): returns `levelFound`, starting
the descent at the head's top level `maxLevel - 1`. -/
def SkipList.find (s : SkipList K V) (key : K) : Option (Option Nat) :=
  s.foundLevelAux key (s.maxLevel - 1)

/-- `SkipList.Find`: absent when `levelFound == -1`; otherwise the found
node's value.  Sequentially the found node is fully linked and unmarked, so
the returned flag is `true`. -/
def SkipList.Find (s : SkipList K V) (key : K) : Option (V × Bool) :=
  match s.find key with
  | none => none
  | some none => some (default, false)
  | some (some l) =>
    match s.succAt key l with
    | none => none
    | some found => some (found.value, true)

/-- The decider type `UpdateCheck` of the skip list.  In Go the decider
returns `(newValue, err)`; a decider closure may also perform effects during
the call (channel sends, response writes), which the model records as an
output of type `W` bundled with the new value. -/
def UpdateCheck (K V E W : Type) := K → V → Bool → Except E (V × W)

/-- In-place value update of the (unique) node holding `key`:
`found.value = newV`. -/
def updateValue (key : K) (newV : V) : List (SLNode K V) → List (SLNode K V)
  | [] => []
  | n :: rest =>
    if n.key = key then { n with value := newV } :: rest
    else n :: updateValue key newV rest

/-- Linking a fresh node for `key` between its predecessors and successors:
in the level-0 chain this places it at its sorted position. -/
def insertNode (key : K) (newV : V) (lvl : Nat) :
    List (SLNode K V) → List (SLNode K V)
  | [] => [⟨key, newV, lvl⟩]
  | n :: rest =>
    if n.key < key then n :: insertNode key newV lvl rest
    else ⟨key, newV, lvl⟩ :: n :: rest

/-- Unlinking the (unique) node holding `key` from every level of the chain:
in the level-0 representation, dropping it. -/
def removeKey (key : K) : List (SLNode K V) → List (SLNode K V)
  | [] => []
  | n :: rest => if n.key = key then rest else n :: removeKey key rest

/-- `SkipList.Upsert`.  `lvl` stands for the outcome of the random coin
flips; the Go loop caps it by the head's top level, hence the
`min lvl (s.maxLevel - 1)`.  Sequentially the validation of predecessors and
successors succeeds and the retry loop runs once.  Returns
`(state, updated, err, deciderOutput)`; `none` is a nil dereference inside
`find`. -/
def SkipList.Upsert (s : SkipList K V) (key : K) (check : UpdateCheck K V E W)
    (lvl : Nat) : Option (SkipList K V × Bool × Option E × Option W) :=
  match s.find key with
  | none => none
  | some (some l) =>
    match s.succAt key l with
    | none => none
    | some found =>
      match check found.key found.value true with
      | .error e => some (s, false, some e, none)
      | .ok (newV, out) =>
        some ({ s with nodes := updateValue key newV s.nodes,
                       totalOps := s.totalOps + 1 }, true, none, some out)
  | some none =>
    match check key default false with
    | .error e => some (s, false, some e, none)
    | .ok (newV, out) =>
      some ({ s with nodes := insertNode key newV (min lvl (s.maxLevel - 1)) s.nodes,
                     totalOps := s.totalOps + 1 }, false, none, some out)

/-- `SkipList.Remove`.  Sequentially the victim is fully linked and unmarked,
so of the four first-pass bail-outs only `levelFound == -1` and
`victim.topLevel != levelFound` remain; predecessor validation succeeds and
the loop runs once.  On failure the Go function returns the zero value,
modeled by `default`. -/
def SkipList.Remove (s : SkipList K V) (key : K) :
    Option (SkipList K V × V × Bool) :=
  match s.find key with
  | none => none
  | some none => some (s, default, false)
  | some (some l) =>
    match s.succAt key l with
    | none => none
    | some victim =>
      if victim.topLevel ≠ l then some (s, default, false)
      else
        some ({ s with nodes := removeKey key s.nodes,
                       totalOps := s.totalOps + 1 }, victim.value, true)

/-- The loop body of the single-pass `query`: a linear walk of the level-0
chain.  The argument is the chain from `curr` on (ending with the tail,
whose level-0 `next` is `nil`); `rest.isEmpty` is the `next == nil` test, and
an empty argument means `curr` itself is `nil`, in which case the Go loop
dereferences `nil` when loading `curr.next[0]`. -/
def queryLoop (qstart qend : K) : List (SLNode K V) → Option (List (K × V))
  | [] => none
  | c :: rest =>
    if c.key < qstart then queryLoop qstart qend rest
    else if decide (qend < c.key) || rest.isEmpty then some []
    else (queryLoop qstart qend rest).map (fun r => (c.key, c.value) :: r)

/-- The unexported single-pass `query`, starting at `head.next[0]`. -/
def SkipList.queryOnce (s : SkipList K V) (qstart qend : K) :
    Option (List (K × V)) :=
  queryLoop qstart qend (s.nodes ++ [s.tailNode])

/-- `SkipList.Query`.  With no concurrent writer the operation counter is
unchanged across the single pass, so the validation loop returns the first
pass's result and the context branch is never consulted. -/
def SkipList.Query (s : SkipList K V) (qstart qend : K) :
    Option (List (K × V)) :=
  s.queryOnce qstart qend

/-- The keys currently in the map. -/
def SkipList.keys (s : SkipList K V) : List K :=
  s.nodes.map (·.key)

/-- Well-formedness of the sequential state: the level-0 chain is strictly
sorted, interior keys lie strictly between the sentinels, and every node's
level is below the head's.  Every state reachable by the operations from
`SkipList.new minKey maxKey maxLevel` (with `minKey < maxKey`,
`0 < maxLevel`, keys strictly between the sentinels) satisfies it. -/
def SkipList.WF (s : SkipList K V) : Prop :=
  s.nodes.Pairwise (fun a b => a.key < b.key)
  ∧ (∀ n ∈ s.nodes, s.minKey < n.key ∧ n.key < s.maxKey)
  ∧ s.minKey < s.maxKey
  ∧ (∀ n ∈ s.nodes, n.topLevel < s.maxLevel)
  ∧ 0 < s.maxLevel

/-! ## JSON values

`encoding/json` unmarshals into `map[string]interface{}`, `[]interface{}`,
`string`, `float64`, `bool` and `nil`.  Objects are modeled as association
lists without duplicate keys (Go maps have none); the list order stands for
one iteration order of the map — every operation below is insensitive to it
as a map.  Numbers are `float64` in Go; the claims only exercise them at
integer points, so they are modeled as integers (which also realizes the
spec's requirement that `42` and `42.0` be equal: both unmarshal to the same
`float64`). -/

/-- A JSON value. -/
inductive JSON where
  | obj : List (String × JSON) → JSON
  | arr : List JSON → JSON
  | str : String → JSON
  | num : Int → JSON
  | bool : Bool → JSON
  | null : JSON
deriving Repr

mutual

/-- Modelled from the spec (the `jsonvisit` package is not under `src/`,
only its callers): `jsonvisit.Equal`, deep JSON equality.  Objects are equal
when they have the same key set with deeply-equal values (Go maps are
unordered); arrays when they are pairwise deeply equal. -/
def jsonEqual : JSON → JSON → Bool
  | .obj a, .obj b => a.length == b.length && objSubEqual a b
  | .arr a, .arr b => arrEqual a b
  | .str a, .str b => a == b
  | .num a, .num b => a == b
  | .bool a, .bool b => a == b
  | .null, .null => true
  | _, _ => false

/-- Every key of the first object is present in the second with a deeply
equal value. -/
def objSubEqual : List (String × JSON) → List (String × JSON) → Bool
  | [], _ => true
  | (k, v) :: rest, b => lookupEqual k v b && objSubEqual rest b

/-- Looks up `k` in the association list and compares the value found. -/
def lookupEqual : String → JSON → List (String × JSON) → Bool
  | _, _, [] => false
  | k, v, (k', v') :: rest =>
    if k = k' then jsonEqual v v' else lookupEqual k v rest

/-- Pairwise deep equality of arrays. -/
def arrEqual : List JSON → List JSON → Bool
  | [], [] => true
  | a :: as2, b :: bs => jsonEqual a b && arrEqual as2 bs
  | _, _ => false

end

/-! ## The patch engine (`patcher`, src/unnamed/part_019)

`patchVisitor` carries the patch and the remaining path `currPath`;
`jsonvisit.Accept` (modelled from the spec — the `jsonvisit` package is not
under `src/`) dispatches on the dynamic kind of the value to the matching
visitor method.  The visitor's path state is threaded as an argument.  Paths
are Go strings, modeled as their character lists. -/

/-- A `patcher.Patch`: operation name, JSON-pointer path, value. -/
structure Patch where
  op : String
  path : List Char
  value : JSON
deriving Repr

/-- `strings.SplitAfterN(currPath, "/", 2)` followed by
`strings.TrimSuffix(splitpath[0], "/")`: the first segment (without its
trailing slash) and, when a slash was found, the remainder. -/
def splitSeg : List Char → List Char × Option (List Char)
  | [] => ([], none)
  | c :: rest =>
    if c = '/' then ([], some rest)
    else
      let (seg, r) := splitSeg rest
      (c :: seg, r)

/-- Digit-string value, `none` when empty or a non-digit appears. -/
def digitsValAux (acc : Nat) : List Char → Option Nat
  | [] => some acc
  | c :: rest =>
    if c.isDigit then digitsValAux (acc * 10 + (c.toNat - 48)) rest else none

/-- The digits of a number, `none` on the empty list. -/
def digitsVal : List Char → Option Nat
  | [] => none
  | l => digitsValAux 0 l

/-- `strconv.Atoi`: optional sign, then digits.  (Its range error at 64-bit
overflow is not exercised by any claim.) -/
def parseAtoi : List Char → Option Int
  | [] => none
  | '+' :: rest => (digitsVal rest).map Int.ofNat
  | '-' :: rest => (digitsVal rest).map (fun n => -(n : Int))
  | cs => (digitsVal cs).map Int.ofNat

/-- `ArrayRemove`'s loop: remove the first element deeply equal to the patch
value; when none is, return the slice unchanged.  (This is the content of
the returned slice; the in-place effect of the `append` on the shared
backing array is modeled separately below.) -/
def arrayRemoveFirst (pval : JSON) : List JSON → List JSON
  | [] => []
  | v :: rest => if jsonEqual v pval then rest else v :: arrayRemoveFirst pval rest

mutual

/-- Modelled from the spec: `jsonvisit.Accept` dispatches on the kind of the
JSON value to the corresponding method of `patchVisitor`. -/
def accept (op : String) (pval : JSON) (curr : List Char) : JSON → Except String JSON
  | .obj m => visitMap op pval curr m
  | .arr s => visitSlice op pval curr s
  | .bool _ => .error "path includes a boolean"
  | .num _ => .error "path includes a Float64"
  | .str _ => .error "path includes a String"
  | .null => .error "path includes a Null"
termination_by j => 2 * sizeOf j

/-- `patchVisitor.Map`.  At the terminal step of an `ObjectAdd`, an existing
key means no change (the original map is returned); otherwise the key is
added.  Otherwise descend into the target key, forwarding errors; a missing
target key is the "Missing key" error. -/
def visitMap (op : String) (pval : JSON) (curr : List Char)
    (m : List (String × JSON)) : Except String JSON :=
  let sp := splitSeg curr
  let targetKey := String.mk sp.1
  if sp.2 = none ∧ op = "ObjectAdd" then
    if m.any (fun kv => kv.1 == targetKey) then .ok (.obj m)
    else .ok (.obj (m ++ [(targetKey, pval)]))
  else
    let newPath := sp.2.getD []
    match visitMapGo op pval targetKey newPath m with
    | .error e => .error e
    | .ok (retval, found) =>
      if found then .ok (.obj retval)
      else .error ("Missing key \"" ++ targetKey ++ "\" in path")
termination_by 2 * sizeOf m + 1

/-- The copying loop of `patchVisitor.Map`: rebuild the map, recursing into
the value stored at the target key.  Returns the rebuilt map and whether the
target key was found. -/
def visitMapGo (op : String) (pval : JSON) (targetKey : String)
    (newPath : List Char) :
    List (String × JSON) → Except String (List (String × JSON) × Bool)
  | [] => .ok ([], false)
  | (k, v) :: rest =>
    if k = targetKey then
      match accept op pval newPath v with
      | .error e => .error e
      | .ok updated =>
        match visitMapGo op pval targetKey newPath rest with
        | .error e => .error e
        | .ok (r, _) => .ok ((k, updated) :: r, true)
    else
      match visitMapGo op pval targetKey newPath rest with
      | .error e => .error e
      | .ok (r, f) => .ok ((k, v) :: r, f)
termination_by l => 2 * sizeOf l

/-- `patchVisitor.Slice`.  A terminal `ArrayAdd` appends the patch value (the
code performs no deep-equality check before appending); a terminal
`ArrayRemove` removes the first deeply-equal element; any other terminal
operation is an error.  Mid-path, the segment must parse as an integer not
exceeding the length, the path must not end here, and the walk descends into
the indexed element. -/
def visitSlice (op : String) (pval : JSON) (curr : List Char)
    (s : List JSON) : Except String JSON :=
  if op = "ArrayAdd" ∧ curr = [] then .ok (.arr (s ++ [pval]))
  else if op = "ArrayRemove" ∧ curr = [] then .ok (.arr (arrayRemoveFirst pval s))
  else if curr = [] then .error "attempted method which was not ArrayAdd or ArrayRemove"
  else
    let sp := splitSeg curr
    match parseAtoi sp.1 with
    | none => .error "attempted to index an array with a non-integer"
    | some targetIDX =>
      if (s.length : Int) < targetIDX then .error "array out of bounds errors"
      else
        match sp.2 with
        | none => .error "path ends with slice index"
        | some newPath => (visitSliceGo op pval targetIDX newPath 0 s).map JSON.arr
termination_by 2 * sizeOf s + 1

/-- The copying loop of `patchVisitor.Slice`: rebuild the slice, recursing
into the element at the target index. -/
def visitSliceGo (op : String) (pval : JSON) (targetIDX : Int)
    (newPath : List Char) (i : Int) : List JSON → Except String (List JSON)
  | [] => .ok []
  | v :: rest =>
    if i = targetIDX then
      match accept op pval newPath v with
      | .error e => .error e
      | .ok u => (visitSliceGo op pval targetIDX newPath (i + 1) rest).map (u :: ·)
    else (visitSliceGo op pval targetIDX newPath (i + 1) rest).map (v :: ·)
termination_by l => 2 * sizeOf l

end

/-- `patcher.ApplyPatch`: construct the visitor (the path must start with a
slash, which is stripped into `currPath`), then visit the document.  On the
missing-slash error the Go function returns `(nil, err)`. -/
def ApplyPatch (doc : JSON) (patch : Patch) : Except String JSON :=
  match patch.path with
  | '/' :: currPath => accept patch.op patch.value currPath doc
  | _ => .error "Patch path missing leading slash"

/-! ## Go slice semantics of the `ArrayRemove` branch

`patchVisitor.Slice` removes an element with `arr := append(s[:i], s[i+1:]...)`.
A Go slice is a (backing array, length, capacity) header; `s[:i]` shares the
backing array of `s` starting at the same offset, and `append` writes into
that backing array in place whenever the result fits its capacity — here the
result has length `len(s) - 1`, which always fits.  The elements after
position `i` are therefore shifted left inside the backing array that the
original slice header still points to. -/

/-- A Go slice header over a backing array (offset 0): the backing array's
contents (its length is the capacity) and the slice length. -/
structure GoSlice (α : Type) where
  backing : List α
  len : Nat

/-- The elements a Go slice header denotes. -/
def GoSlice.view (s : GoSlice α) : List α := s.backing.take s.len

/-- Writing `xs` into a backing array at positions `start ..`. -/
def overwriteFrom (l : List α) (start : Nat) (xs : List α) : List α :=
  l.take start ++ xs ++ l.drop (start + xs.length)

/-- `append(dst, src...)` when the result fits the backing array's capacity
(as it always does in the `ArrayRemove` branch): the source elements are
written into the shared backing array right after `dst`'s elements, and the
returned header has the combined length over the same backing array. -/
def goAppendInPlace (b : List α) (dstLen : Nat) (src : List α) : List α × Nat :=
  (overwriteFrom b dstLen src, dstLen + src.length)

/-- The index of the first element deeply equal to the patch value. -/
def firstEqIdx (pval : JSON) : List JSON → Option Nat
  | [] => none
  | v :: rest =>
    if jsonEqual v pval then some 0 else (firstEqIdx pval rest).map (· + 1)

/-- The `ArrayRemove` branch of `patchVisitor.Slice` at the store level: the
visited slice is the header `(b, n)`; on a match at index `i` the code
returns `append(s[:i], s[i+1:]...)`, whose effect is `goAppendInPlace` on the
shared backing array.  Returns the backing array after the call and the
returned header's length; the original header still denotes `n` elements of
that same backing array. -/
def sliceArrayRemoveStore (b : List JSON) (n : Nat) (pval : JSON) :
    List JSON × Nat :=
  match firstEqIdx pval (b.take n) with
  | some i => goAppendInPlace b i ((b.take n).drop (i + 1))
  | none => (b, n)

/-! ## Documents, collections, responses

The `net/http` response writer is modeled as a record; as in Go, the first
`WriteHeader` fixes the status and later calls are superfluous, and a `Write`
without a prior `WriteHeader` implies status 200.  `json.Marshal` of the
response payloads never fails on the values involved; its output is modeled
as an injective constructor (`Msg`) since no claim depends on the byte
encoding. -/

/-- Document metadata (`document.meta`). -/
structure Meta where
  createdBy : String
  createdAt : Int
  lastModifiedBy : String
  lastModifiedAt : Int
deriving DecidableEq, Repr

/-- `document.docoutput`: path, body and metadata. -/
structure DocOutput where
  path : String
  doc : JSON
  meta : Meta
deriving Repr

/-- `document.Document`.  The child `CollectionHolder` is not part of the
model: on the code paths the claims exercise it is either untouched or reset
to empty together with an overwrite, and no claim mentions it. -/
structure Document where
  output : DocOutput
  subscribers : List Nat
deriving Repr

instance : Inhabited JSON := ⟨.null⟩

instance : Inhabited Document := ⟨⟨⟨"", .null, ⟨"", 0, "", 0⟩⟩, []⟩⟩

/-- `structs.PatchResponse`. -/
structure PatchResponse where
  uri : String
  patchFailed : Bool
  message : String
deriving DecidableEq, Repr

/-- A marshaled response or event payload (`json.Marshal` output, modeled as
an injective constructor). -/
inductive Msg where
  | text : String → Msg
  | putOutputMsg : String → Msg
  | docMsg : DocOutput → Msg
  | docListMsg : List DocOutput → Msg
  | patchRespMsg : PatchResponse → Msg
deriving Repr

/-- An `http.ResponseWriter`'s observable state. -/
structure Response where
  status : Option Nat
  headers : List (String × String)
  body : List Msg
deriving Repr

/-- A fresh response writer. -/
def Response.empty : Response := ⟨none, [], []⟩

/-- `WriteHeader`: only the first call takes effect. -/
def Response.writeHeader (w : Response) (code : Nat) : Response :=
  if w.status.isSome then w else { w with status := some code }

/-- `Write`: an implicit 200 when no header was written yet, then append to
the body. -/
def Response.write (w : Response) (m : Msg) : Response :=
  let w := if w.status.isSome then w else { w with status := some 200 }
  { w with body := w.body ++ [m] }

/-- `Header().Set`. -/
def Response.setHeader (w : Response) (k v : String) : Response :=
  { w with headers := w.headers ++ [(k, v)] }

/-- `http.Error`: write the status code, then the message. -/
def httpError (w : Response) (msg : String) (code : Nat) : Response :=
  (w.writeHeader code).write (.text msg)

/-- An event sent on a subscriber's channel: `UpdateCh` carries a marshaled
body, `DeleteCh` a path. -/
inductive Event where
  | update : Msg → Event
  | delete : String → Event
deriving Repr

/-- `Document.Overwrite` (`OverwriteBody`): replace the body, stamp
`lastModifiedBy`/`lastModifiedAt`; `createdBy`/`createdAt` are preserved.
(It also resets the unmodeled child collections to empty.) -/
def Document.overwrite (d : Document) (docBody : JSON) (name : String)
    (now : Int) : Document :=
  { d with output := { d.output with
      doc := docBody,
      meta := { d.output.meta with lastModifiedBy := name, lastModifiedAt := now } } }

/-- `Document.GetJSONBody`: marshal the docoutput (never fails here). -/
def Document.getJSONBody (d : Document) : Msg := .docMsg d.output

/-- `collection.Collection`: a skip list of documents plus the subscriber
list.  A subscriber is identified by its id; the code stores only the
subscriber's channels — in particular no interval. -/
structure Collection where
  documents : SkipList GoStr Document
  subscribers : List Nat

/-- `collection.New`: an empty skip list over the string sentinels with
`DEFAULT_LEVEL = 5`, and no subscribers. -/
def Collection.new : Collection :=
  ⟨SkipList.new STRING_MIN STRING_MAX 5, []⟩

instance : Inhabited Collection := ⟨Collection.new⟩

/-- The `timestamp` query parameter as the code case-splits on it: absent
(`""`, giving `-1`), failing `strconv.Atoi`, or an integer value. -/
inductive TsParam where
  | absent : TsParam
  | bad : TsParam
  | val : Int → TsParam

/-- The `docUpsert` decider closure of `Collection.DocumentPut`, with its
captured variables (the collection, the parsed timestamp, the incoming
document, the clock) made explicit.  In the exists case a timestamp that is
neither `-1` nor the current `lastModifiedAt` vetoes with
`"bad timestamp match"`; otherwise the existing document is overwritten and
the update message is sent to the document's and the collection's
subscribers.  In the absent case the new document is inserted and the
collection's subscribers are notified. -/
def Collection.docUpsert (c : Collection) (timeStamp : Int) (newDoc : Document)
    (now : Int) : UpdateCheck GoStr Document String (List (Nat × Event)) :=
  fun _key currValue ex =>
    if ex then
      let matchOld := timeStamp = currValue.output.meta.lastModifiedAt
      if timeStamp ≠ -1 ∧ ¬matchOld then .error "bad timestamp match"
      else
        let curr2 := currValue.overwrite newDoc.output.doc
          newDoc.output.meta.createdBy now
        let updateMSG := curr2.getJSONBody
        .ok (curr2,
          curr2.subscribers.map (fun i => (i, Event.update updateMSG))
            ++ c.subscribers.map (fun i => (i, Event.update updateMSG)))
    else
      let updateMSG := newDoc.getJSONBody
      .ok (newDoc, c.subscribers.map (fun i => (i, Event.update updateMSG)))

/-- `Collection.DocumentPut` (`collection/collection.go`).  `path` is the new
document's name, `urlPath` the request URL path, `now` the current time in
milliseconds, `lvl` the random level drawn inside `Upsert`.  Returns the
response, the new collection state, and the events sent to subscriber
channels (pairs of subscriber id and event).  `none` is a nil dereference
inside the skip list.  Note the error handling after `Upsert` does not
return: execution falls through to the success path, whose `WriteHeader` is
then superfluous. -/
def Collection.DocumentPut (c : Collection) (w : Response) (urlPath : String)
    (tsParam : TsParam) (path : GoStr) (newDoc : Document) (now : Int)
    (lvl : Nat) : Option (Response × Collection × List (Nat × Event)) :=
  let jsonResponse : Msg := .putOutputMsg urlPath
  match tsParam with
  | .bad => some (httpError w "Bad timestamp" 400, c, [])
  | ts =>
    let timeStamp : Int := match ts with | .val v => v | _ => -1
    match c.documents.Upsert path (c.docUpsert timeStamp newDoc now) lvl with
    | none => none
    | some (s2, updated, errOpt, out) =>
      let w := match errOpt with
        | some e =>
          if e = "Bad timestamp" then httpError w "PUT: bad timestamp" 404
          else httpError w ("PUT() error " ++ e) 500
        | none => w
      let w := w.setHeader "Location" urlPath
      let w := if updated then w.writeHeader 200 else w.writeHeader 201
      some (w.write jsonResponse, { c with documents := s2 }, out.getD [])

/-- `strings.Split` on a single byte. -/
def splitOnByte (b : Nat) : GoStr → List GoStr
  | [] => [[]]
  | c :: rest =>
    match splitOnByte b rest with
    | [] => [[c]]
    | r :: rs => if c = b then [] :: r :: rs else (c :: r) :: rs

/-- `collection.getInterval`: parse an `interval=[lo,hi]` query value into
query bounds, defaulting to the sentinels when malformed; an empty upper
bound becomes `STRING_MAX`.  (Bytes 91, 93, 44 are `[`, `]`, `,`.) -/
def getInterval (intervalStr : GoStr) : GoStr × GoStr :=
  if intervalStr.length > 2 ∧ intervalStr.headI = 91
      ∧ intervalStr.getLastI = 93 then
    let inner := (intervalStr.drop 1).dropLast
    match splitOnByte 44 inner with
    | [i0, i1] => (i0, if i1 = [] then STRING_MAX else i1)
    | _ => (STRING_MIN, STRING_MAX)
  else (STRING_MIN, STRING_MAX)

/-- `Collection.CollectionGet` (`collection/collection.go`).  Parses the
interval, queries the documents, and either registers a subscriber (in
`mode=subscribe`), pushing the current snapshot to it as update events, or
writes the marshaled snapshot.  The interval is used only as the query
bounds; the subscriber is recorded without it.  The `Query`-error branch
(HTTP 408) answers a context timeout, which the sequential semantics never
produces. -/
def Collection.CollectionGet (c : Collection) (w : Response)
    (intervalParam : GoStr) (mode : String) (newSubId : Nat) :
    Option (Response × Collection × List (Nat × Event)) :=
  let interval := getInterval intervalParam
  match c.documents.Query interval.1 interval.2 with
  | none => none
  | some pairs =>
    let returnDocs := pairs.map (fun p => p.2.output)
    if mode = "subscribe" then
      let c2 := { c with subscribers := c.subscribers ++ [newSubId] }
      some (w, c2,
        returnDocs.map (fun o => (newSubId, Event.update (Msg.docMsg o))))
    else
      some ((w.setHeader "Content-Type" "application/json").write
        (.docListMsg returnDocs), c, [])

/-- `Document.ApplyPatches` (`document/document.go`): fold the patches
left-to-right over the body; the first failure aborts with
`patchFailed = true` and its message; then the schema check
(`validate j = none` meaning conformant, `some msg` the validation error
text — schema compilation is outside the core); only full success returns
the new body. -/
def Document.applyPatchesLoop : JSON → List Patch → Except String JSON
  | doc, [] => .ok doc
  | doc, p :: rest =>
    match ApplyPatch doc p with
    | .error e => .error e
    | .ok nd => Document.applyPatchesLoop nd rest

/-- `Document.ApplyPatches`, the part after the loop: schema validation and
the reply (`Uri` is filled in by the caller). -/
def Document.applyPatches (d : Document) (patches : List Patch)
    (validate : JSON → Option String) : PatchResponse × Option JSON :=
  match Document.applyPatchesLoop d.output.doc patches with
  | .error e =>
    (⟨"", true, "Error applying patches: " ++ e⟩, none)
  | .ok newdoc =>
    match validate newdoc with
    | some e =>
      (⟨"", true, "Patched document did not conform to schema: " ++ e⟩, none)
    | none => (⟨"", false, "patches applied"⟩, some newdoc)

/-- `Collection.DocumentPatch` (`collection/collection.go`): find the
document (404 if absent), apply the patches; on success overwrite the
document's body and metadata, notify the document's and the collection's
subscribers, re-insert through `Upsert`, and answer 200 with the reply; on
patch failure answer 400 with the reply, leaving the state as is.  The
request body is taken already unmarshaled into `patches` (its read/parse
error branches are not exercised by the claims). -/
def Collection.DocumentPatch (c : Collection) (w : Response) (urlPath : String)
    (docpath : GoStr) (validate : JSON → Option String) (name : String)
    (patches : List Patch) (now : Int) (lvl : Nat) :
    Option (Response × Collection × List (Nat × Event)) :=
  match c.documents.Find docpath with
  | none => none
  | some (_, false) =>
    some (httpError w "Document does not exist" 404, c, [])
  | some (doc, true) =>
    let pr := doc.applyPatches patches validate
    let patchreply : PatchResponse := { pr.1 with uri := urlPath }
    let jsonResponse : Msg := .patchRespMsg patchreply
    if ¬patchreply.patchFailed then
      let doc2 := doc.overwrite (pr.2.getD default) name now
      let updateMSG := doc2.getJSONBody
      let evs := doc2.subscribers.map (fun i => (i, Event.update updateMSG))
        ++ c.subscribers.map (fun i => (i, Event.update updateMSG))
      let patchUpsert : UpdateCheck GoStr Document String Unit :=
        fun _ _ ex => if ex then .ok (doc2, ()) else .error "not found"
      match c.documents.Upsert docpath patchUpsert lvl with
      | none => none
      | some (s2, updated, _, _) =>
        if ¬updated then
          some (httpError w "internal server error" 500,
            { c with documents := s2 }, evs)
        else
          some ((((w.setHeader "Location" urlPath).writeHeader 200).write
            jsonResponse), { c with documents := s2 }, evs)
    else
      some ((w.writeHeader 400).write jsonResponse, c, [])

/-- `collectionholder.CollectionHolder`: a skip list of collections. -/
structure CollectionHolder where
  collections : SkipList GoStr Collection

/-- `collectionholder.New`. -/
def CollectionHolder.new : CollectionHolder :=
  ⟨SkipList.new STRING_MIN STRING_MAX 5⟩

/-- `CollectionHolder.CollectionPut`
(`collectionholder/collectionholder.go`): `Upsert` with a decider that
refuses an existing name with the error `"database already exists"`; on any
`Upsert` error the handler switches on the error text — the case label is
`"Database already exists"` (capital D) — and returns; on success 201 with
the `{ uri }` body. -/
def CollectionHolder.CollectionPut (h : CollectionHolder) (w : Response)
    (urlPath : String) (dbpath : GoStr) (newColl : Collection) (lvl : Nat) :
    Option (Response × CollectionHolder) :=
  let dbUpsert : UpdateCheck GoStr Collection String Unit :=
    fun _ _ ex => if ex then .error "database already exists" else .ok (newColl, ())
  match h.collections.Upsert dbpath dbUpsert lvl with
  | none => none
  | some (s2, _, errOpt, _) =>
    match errOpt with
    | some e =>
      some ((if e = "Database already exists" then httpError w e 400
        else httpError w ("PUT() error " ++ e) 500), ⟨s2⟩)
    | none =>
      let jsonResponse : Msg := .putOutputMsg urlPath
      some ((((w.setHeader "Location" urlPath).writeHeader 201).write
        jsonResponse), ⟨s2⟩)

/-! ## Lemmas about the skip-list walk -/

lemma walkLevel_eq_none_iff {key : K} {l : List (SLNode K V)} :
    walkLevel key l = none ↔ ∀ c ∈ l, c.key < key := by
  induction l with
  | nil => simp [walkLevel]
  | cons c rest ih =>
    by_cases h : c.key < key
    · simp [walkLevel, h, ih]
    · simp [walkLevel, h]

lemma walkLevel_mem {key : K} {l : List (SLNode K V)} {c : SLNode K V}
    (h : walkLevel key l = some c) : c ∈ l := by
  induction l with
  | nil => simp [walkLevel] at h
  | cons d rest ih =>
    by_cases hd : d.key < key
    · simp only [walkLevel, if_pos hd] at h
      exact List.mem_cons_of_mem _ (ih h)
    · simp only [walkLevel, if_neg hd, Option.some.injEq] at h
      exact h ▸ List.mem_cons_self _ _

lemma walkLevel_key_le {key : K} {l : List (SLNode K V)} {c : SLNode K V}
    (h : walkLevel key l = some c) : key ≤ c.key := by
  induction l with
  | nil => simp [walkLevel] at h
  | cons d rest ih =>
    by_cases hd : d.key < key
    · simp only [walkLevel, if_pos hd] at h
      exact ih h
    · simp only [walkLevel, if_neg hd, Option.some.injEq] at h
      exact h ▸ le_of_not_lt hd

lemma walkLevel_of_mem {key : K} {l : List (SLNode K V)} {m : SLNode K V}
    (hsort : l.Pairwise (fun a b => a.key < b.key)) (hm : m ∈ l)
    (hk : m.key = key) : walkLevel key l = some m := by
  induction l with
  | nil => simp at hm
  | cons c rest ih =>
    rw [List.pairwise_cons] at hsort
    rcases List.mem_cons.mp hm with rfl | hmr
    · have hnlt : ¬ m.key < key := by rw [hk]; exact lt_irrefl _
      simp [walkLevel, hnlt]
    · have hck : c.key < key := hk ▸ hsort.1 m hmr
      simp [walkLevel, hck, ih hsort.2 hmr]

/-! ## Lemmas about levels and `find` -/

lemma mem_chainAt {s : SkipList K V} {l : Nat} {n : SLNode K V} :
    n ∈ s.chainAt l ↔ n ∈ s.nodes ∧ l ≤ n.topLevel := by
  simp [SkipList.chainAt, List.mem_filter]

lemma chainAt_sublist (s : SkipList K V) (l : Nat) :
    List.Sublist (s.chainAt l) s.nodes :=
  List.filter_sublist _

lemma tailNode_mem_levelList (s : SkipList K V) (l : Nat) :
    s.tailNode ∈ s.levelList l := by
  simp [SkipList.levelList]

lemma mem_levelList {s : SkipList K V} {l : Nat} {c : SLNode K V} :
    c ∈ s.levelList l ↔ c ∈ s.chainAt l ∨ c = s.tailNode := by
  simp [SkipList.levelList]

lemma levelList_sorted {s : SkipList K V} (hwf : s.WF) (l : Nat) :
    (s.levelList l).Pairwise (fun a b => a.key < b.key) := by
  rw [SkipList.levelList, List.pairwise_append]
  refine ⟨hwf.1.sublist (chainAt_sublist s l), List.pairwise_singleton _ _, ?_⟩
  intro a ha b hb
  rw [List.mem_singleton] at hb
  subst hb
  exact (hwf.2.1 a ((chainAt_sublist s l).subset ha)).2

lemma key_unique {s : SkipList K V} (hwf : s.WF) {a b : SLNode K V}
    (ha : a ∈ s.nodes) (hb : b ∈ s.nodes) (hab : a.key = b.key) : a = b := by
  by_contra hne
  have hpw : s.nodes.Pairwise (fun x y : SLNode K V => x.key ≠ y.key) :=
    hwf.1.imp (fun h => ne_of_lt h)
  exact (hpw.forall (fun x y h => h.symm) ha hb hne) hab

lemma succAt_isSome {s : SkipList K V} {key : K} (hk : key ≤ s.maxKey)
    (l : Nat) : (s.succAt key l).isSome := by
  rw [SkipList.succAt, Option.isSome_iff_ne_none]
  intro hnone
  have := walkLevel_eq_none_iff.mp hnone s.tailNode (tailNode_mem_levelList s l)
  exact absurd this (not_lt_of_le hk)

lemma succAt_eq_none {s : SkipList K V} {key : K} (hwf : s.WF)
    (hk : s.maxKey < key) (l : Nat) : s.succAt key l = none := by
  rw [SkipList.succAt, walkLevel_eq_none_iff]
  intro c hc
  rcases mem_levelList.mp hc with h | rfl
  · exact lt_trans (hwf.2.1 c ((chainAt_sublist s l).subset h)).2 hk
  · exact hk

lemma succAt_of_node {s : SkipList K V} {key : K} {n : SLNode K V}
    (hwf : s.WF) (hn : n ∈ s.nodes) (hkey : n.key = key) {l : Nat}
    (hl : l ≤ n.topLevel) : s.succAt key l = some n :=
  walkLevel_of_mem (levelList_sorted hwf l)
    (mem_levelList.mpr (Or.inl (mem_chainAt.mpr ⟨hn, hl⟩))) hkey

lemma succAt_key_ne_of_absent {s : SkipList K V} {key : K} {c : SLNode K V}
    (hwf : s.WF) (habs : ∀ n ∈ s.nodes, n.key ≠ key) (hk : key < s.maxKey)
    {l : Nat} (h : s.succAt key l = some c) : c.key ≠ key := by
  rcases mem_levelList.mp (walkLevel_mem h) with hm | rfl
  · exact habs c ((chainAt_sublist s l).subset hm)
  · exact fun he => absurd he.symm (ne_of_lt hk)

lemma succAt_key_ne_of_high {s : SkipList K V} {key : K} {n c : SLNode K V}
    (hwf : s.WF) (hn : n ∈ s.nodes) (hkey : n.key = key) (hk : key < s.maxKey)
    {l : Nat} (hl : n.topLevel < l) (h : s.succAt key l = some c) :
    c.key ≠ key := by
  intro hc
  rcases mem_levelList.mp (walkLevel_mem h) with hm | rfl
  · rcases mem_chainAt.mp hm with ⟨hcn, hcl⟩
    have : c = n := key_unique hwf hcn hn (hc.trans hkey.symm)
    subst this
    exact absurd hcl (not_le_of_lt hl)
  · exact absurd hc (by simpa [SkipList.tailNode] using (ne_of_lt hk).symm)

lemma foundLevelAux_isSome {s : SkipList K V} {key : K}
    (hk : key ≤ s.maxKey) (l : Nat) : (s.foundLevelAux key l).isSome := by
  induction l with
  | zero =>
    rcases Option.isSome_iff_exists.mp (succAt_isSome hk 0) with ⟨c, hc⟩
    simp [SkipList.foundLevelAux, hc]
  | succ l ih =>
    rcases Option.isSome_iff_exists.mp (succAt_isSome hk (l + 1)) with ⟨c, hc⟩
    by_cases hce : c.key = key
    · simp [SkipList.foundLevelAux, hc, hce]
    · simpa [SkipList.foundLevelAux, hc, hce] using ih

lemma foundLevelAux_eq_none {s : SkipList K V} {key : K} (hwf : s.WF)
    (hk : s.maxKey < key) (l : Nat) : s.foundLevelAux key l = none := by
  cases l with
  | zero => simp [SkipList.foundLevelAux, succAt_eq_none hwf hk]
  | succ l => simp [SkipList.foundLevelAux, succAt_eq_none hwf hk]

lemma foundLevelAux_absent {s : SkipList K V} {key : K} (hwf : s.WF)
    (hk : key < s.maxKey) (habs : ∀ n ∈ s.nodes, n.key ≠ key) (l : Nat) :
    s.foundLevelAux key l = some none := by
  induction l with
  | zero =>
    rcases Option.isSome_iff_exists.mp (succAt_isSome (le_of_lt hk) 0) with ⟨c, hc⟩
    simp [SkipList.foundLevelAux, hc, succAt_key_ne_of_absent hwf habs hk hc]
  | succ l ih =>
    rcases Option.isSome_iff_exists.mp (succAt_isSome (le_of_lt hk) (l + 1)) with ⟨c, hc⟩
    simp [SkipList.foundLevelAux, hc,
      succAt_key_ne_of_absent hwf habs hk hc, ih]

lemma foundLevelAux_present {s : SkipList K V} {key : K} {n : SLNode K V}
    (hwf : s.WF) (hn : n ∈ s.nodes) (hkey : n.key = key) (hk : key < s.maxKey) :
    ∀ l, n.topLevel ≤ l → s.foundLevelAux key l = some (some n.topLevel) := by
  intro l
  induction l with
  | zero =>
    intro hl
    have h0 : n.topLevel = 0 := Nat.le_zero.mp hl
    have hs := succAt_of_node hwf hn hkey (l := 0) (by omega)
    simp [SkipList.foundLevelAux, hs, hkey, h0]
  | succ l ih =>
    intro hl
    rcases Nat.lt_or_ge l.succ n.topLevel with h | h
    · omega
    rcases Nat.eq_or_lt_of_le h with he | hlt
    · have hs := succAt_of_node hwf hn hkey (l := l + 1) (by omega)
      simp [SkipList.foundLevelAux, hs, hkey, he]
    · rcases Option.isSome_iff_exists.mp (succAt_isSome (le_of_lt hk) (l + 1)) with ⟨c, hc⟩
      have hne := succAt_key_ne_of_high hwf hn hkey hk (by omega) hc
      rw [SkipList.foundLevelAux]
      rw [hc]
      simp only [hne, if_false]
      exact ih (by omega)

lemma find_isSome {s : SkipList K V} {key : K} (hk : key ≤ s.maxKey) :
    (s.find key).isSome :=
  foundLevelAux_isSome hk _

lemma find_eq_none {s : SkipList K V} {key : K} (hwf : s.WF)
    (hk : s.maxKey < key) : s.find key = none :=
  foundLevelAux_eq_none hwf hk _

lemma find_absent {s : SkipList K V} {key : K} (hwf : s.WF)
    (hk : key < s.maxKey) (habs : key ∉ s.keys) : s.find key = some none := by
  refine foundLevelAux_absent hwf hk ?_ _
  intro n hn he
  exact habs (he ▸ List.mem_map_of_mem (·.key) hn)

lemma find_present {s : SkipList K V} {key : K} {n : SLNode K V}
    (hwf : s.WF) (hn : n ∈ s.nodes) (hkey : n.key = key) (hk : key < s.maxKey) :
    s.find key = some (some n.topLevel) :=
  foundLevelAux_present hwf hn hkey hk _ (by
    have := hwf.2.2.2.1 n hn
    omega)

lemma exists_node_of_mem_keys {s : SkipList K V} {key : K}
    (h : key ∈ s.keys) : ∃ n ∈ s.nodes, n.key = key := by
  simpa [SkipList.keys] using h

/-- A `find` that reports `-1` means the key is absent (well-formed state,
key below the tail sentinel). -/
lemma not_mem_keys_of_find_none {s : SkipList K V} {key : K} (hwf : s.WF)
    (hk : key < s.maxKey) (h : s.find key = some none) : key ∉ s.keys := by
  intro hmem
  rcases exists_node_of_mem_keys hmem with ⟨n, hn, hkey⟩
  rw [find_present hwf hn hkey hk] at h
  simp at h

/-! ## Preservation lemmas for the three state updates -/

lemma updateValue_shape (key : K) (newV : V) :
    ∀ l : List (SLNode K V),
      (updateValue key newV l).map (fun n => (n.key, n.topLevel)) =
        l.map (fun n => (n.key, n.topLevel))
  | [] => by simp [updateValue]
  | n :: rest => by
    by_cases h : n.key = key
    · simp [updateValue, h]
    · simp [updateValue, h, updateValue_shape key newV rest]

lemma mem_updateValue {key : K} {newV : V} {l : List (SLNode K V)}
    {b : SLNode K V} (hb : b ∈ updateValue key newV l) :
    ∃ a ∈ l, b.key = a.key ∧ b.topLevel = a.topLevel := by
  induction l with
  | nil => simp [updateValue] at hb
  | cons n rest ih =>
    by_cases h : n.key = key
    · simp only [updateValue, if_pos h] at hb
      rcases List.mem_cons.mp hb with rfl | hbr
      · exact ⟨n, List.mem_cons_self _ _, rfl, rfl⟩
      · exact ⟨b, List.mem_cons_of_mem _ hbr, rfl, rfl⟩
    · simp only [updateValue, if_neg h] at hb
      rcases List.mem_cons.mp hb with rfl | hbr
      · exact ⟨b, List.mem_cons_self _ _, rfl, rfl⟩
      · rcases ih hbr with ⟨a, ha, h1, h2⟩
        exact ⟨a, List.mem_cons_of_mem _ ha, h1, h2⟩

lemma updateValue_pairwise {key : K} {newV : V} {l : List (SLNode K V)}
    (h : l.Pairwise (fun a b => a.key < b.key)) :
    (updateValue key newV l).Pairwise (fun a b => a.key < b.key) := by
  induction l with
  | nil => simpa [updateValue] using h
  | cons n rest ih =>
    rw [List.pairwise_cons] at h
    by_cases hk : n.key = key
    · rw [updateValue, if_pos hk, List.pairwise_cons]
      exact ⟨fun b hb => h.1 b hb, h.2⟩
    · rw [updateValue, if_neg hk, List.pairwise_cons]
      refine ⟨fun b hb => ?_, ih h.2⟩
      rcases mem_updateValue hb with ⟨a, ha, h1, _⟩
      exact h1 ▸ h.1 a ha

lemma updateValue_WF {s : SkipList K V} {key : K} {newV : V} (hwf : s.WF) :
    SkipList.WF { s with nodes := updateValue key newV s.nodes,
                         totalOps := s.totalOps + 1 } := by
  refine ⟨updateValue_pairwise hwf.1, ?_, hwf.2.2.1, ?_, hwf.2.2.2.2⟩
  · intro n hn
    rcases mem_updateValue hn with ⟨a, ha, h1, _⟩
    exact h1 ▸ hwf.2.1 a ha
  · intro n hn
    rcases mem_updateValue hn with ⟨a, ha, _, h2⟩
    exact h2 ▸ hwf.2.2.2.1 a ha

lemma updateValue_keys (key : K) (newV : V) (l : List (SLNode K V)) :
    (updateValue key newV l).map (·.key) = l.map (·.key) := by
  induction l with
  | nil => simp [updateValue]
  | cons n rest ih =>
    by_cases h : n.key = key
    · simp [updateValue, h]
    · simp [updateValue, h, ih]

lemma mem_insertNode {key : K} {newV : V} {lvl : Nat}
    {l : List (SLNode K V)} {b : SLNode K V}
    (hb : b ∈ insertNode key newV lvl l) :
    b = ⟨key, newV, lvl⟩ ∨ b ∈ l := by
  induction l with
  | nil => simpa [insertNode] using hb
  | cons n rest ih =>
    by_cases h : n.key < key
    · simp only [insertNode, if_pos h] at hb
      rcases List.mem_cons.mp hb with rfl | hbr
      · exact Or.inr (List.mem_cons_self _ _)
      · rcases ih hbr with h1 | h1
        · exact Or.inl h1
        · exact Or.inr (List.mem_cons_of_mem _ h1)
    · simp only [insertNode, if_neg h] at hb
      rcases List.mem_cons.mp hb with rfl | hbr
      · exact Or.inl rfl
      · exact Or.inr hbr

lemma insertNode_pairwise {key : K} {newV : V} {lvl : Nat}
    {l : List (SLNode K V)}
    (h : l.Pairwise (fun a b => a.key < b.key))
    (habs : ∀ a ∈ l, a.key ≠ key) :
    (insertNode key newV lvl l).Pairwise (fun a b => a.key < b.key) := by
  induction l with
  | nil => simp [insertNode]
  | cons n rest ih =>
    rw [List.pairwise_cons] at h
    by_cases hk : n.key < key
    · rw [insertNode, if_pos hk, List.pairwise_cons]
      refine ⟨fun b hb => ?_, ih h.2 (fun a ha => habs a (List.mem_cons_of_mem _ ha))⟩
      rcases mem_insertNode hb with rfl | h1
      · exact hk
      · exact h.1 b h1
    · have hkn : key < n.key :=
        lt_of_le_of_ne (le_of_not_lt hk) (fun he => habs n (List.mem_cons_self _ _) he.symm)
      rw [insertNode, if_neg hk]
      rw [List.pairwise_cons]
      constructor
      · intro b hb
        rcases List.mem_cons.mp hb with rfl | h1
        · exact hkn
        · exact lt_trans hkn (h.1 b h1)
      · exact List.pairwise_cons.mpr h

lemma insertNode_WF {s : SkipList K V} {key : K} {newV : V} {lvl : Nat}
    (hwf : s.WF) (habs : key ∉ s.keys) (hmin : s.minKey < key)
    (hmax : key < s.maxKey) :
    SkipList.WF { s with nodes := insertNode key newV (min lvl (s.maxLevel - 1)) s.nodes,
                         totalOps := s.totalOps + 1 } := by
  have habs2 : ∀ a ∈ s.nodes, a.key ≠ key := by
    intro a ha he
    exact habs (he ▸ List.mem_map_of_mem (·.key) ha)
  refine ⟨insertNode_pairwise hwf.1 habs2, ?_, hwf.2.2.1, ?_, hwf.2.2.2.2⟩
  · intro n hn
    rcases mem_insertNode hn with rfl | h1
    · exact ⟨hmin, hmax⟩
    · exact hwf.2.1 n h1
  · intro n hn
    rcases mem_insertNode hn with rfl | h1
    · have := hwf.2.2.2.2
      simp only
      omega
    · exact hwf.2.2.2.1 n h1

lemma mem_keys_insertNode {key m : K} {newV : V} {lvl : Nat}
    {l : List (SLNode K V)}
    (h : m ∈ (insertNode key newV lvl l).map (·.key)) :
    m = key ∨ m ∈ l.map (·.key) := by
  rcases List.mem_map.mp h with ⟨b, hb, hbk⟩
  rcases mem_insertNode hb with rfl | h1
  · exact Or.inl hbk.symm
  · exact Or.inr (hbk ▸ List.mem_map_of_mem (·.key) h1)

lemma removeKey_sublist (key : K) :
    ∀ l : List (SLNode K V), List.Sublist (removeKey key l) l
  | [] => by simp [removeKey]
  | n :: rest => by
    by_cases h : n.key = key
    · rw [removeKey, if_pos h]
      exact List.sublist_cons_self _ _
    · rw [removeKey, if_neg h]
      exact List.Sublist.cons₂ _ (removeKey_sublist key rest)

lemma removeKey_WF {s : SkipList K V} (key : K) (hwf : s.WF) :
    SkipList.WF { s with nodes := removeKey key s.nodes,
                         totalOps := s.totalOps + 1 } := by
  have hsub := removeKey_sublist (V := V) key s.nodes
  exact ⟨hwf.1.sublist hsub,
    fun n hn => hwf.2.1 n (hsub.subset hn), hwf.2.2.1,
    fun n hn => hwf.2.2.2.1 n (hsub.subset hn), hwf.2.2.2.2⟩

lemma not_mem_keys_removeKey {key : K} :
    ∀ {l : List (SLNode K V)}, l.Pairwise (fun a b => a.key < b.key) →
      key ∉ (removeKey key l).map (·.key) := by
  intro l
  induction l with
  | nil => intro _; simp [removeKey]
  | cons n rest ih =>
    intro hpw
    rw [List.pairwise_cons] at hpw
    by_cases h : n.key = key
    · rw [removeKey, if_pos h]
      intro hmem
      rcases List.mem_map.mp hmem with ⟨b, hb, hbk⟩
      have hlt := hpw.1 b hb
      rw [h, hbk] at hlt
      exact lt_irrefl key hlt
    · rw [removeKey, if_neg h]
      intro hmem
      rcases List.mem_map.mp hmem with ⟨b, hb, hbk⟩
      rcases List.mem_cons.mp hb with rfl | hbr
      · exact h hbk
      · have hmm := List.mem_map_of_mem (·.key) hbr
        simp only [] at hmm
        rw [hbk] at hmm
        exact (ih hpw.2) hmm

lemma mem_keys_removeKey {key m : K} {l : List (SLNode K V)}
    (h : m ∈ (removeKey key l).map (·.key)) : m ∈ l.map (·.key) := by
  rcases List.mem_map.mp h with ⟨b, hb, hbk⟩
  exact hbk ▸ List.mem_map_of_mem (·.key) ((removeKey_sublist key l).subset hb)

/-! ## Lemmas about the level-0 query walk -/

lemma queryLoop_cons (qstart qend : K) (n : SLNode K V)
    (rest : List (SLNode K V)) :
    queryLoop qstart qend (n :: rest) =
      if n.key < qstart then queryLoop qstart qend rest
      else if decide (qend < n.key) || rest.isEmpty then some []
      else (queryLoop qstart qend rest).map (fun r => (n.key, n.value) :: r) :=
  rfl

lemma queryLoop_spec (qstart qend : K) :
    ∀ (ns : List (SLNode K V)) (t : SLNode K V),
      ns.Pairwise (fun a b => a.key < b.key) →
      (∀ n ∈ ns, n.key < t.key) →
      qstart ≤ t.key →
      queryLoop qstart qend (ns ++ [t]) =
        some ((ns.filter (fun n => decide (qstart ≤ n.key) && decide (n.key ≤ qend))).map
          (fun n => (n.key, n.value)))
  | [], t => by
    intro _ _ hq
    simp [queryLoop, not_lt_of_le hq]
  | n :: ns, t => by
    intro hpw hbound hq
    rw [List.pairwise_cons] at hpw
    have ih := queryLoop_spec qstart qend ns t hpw.2
      (fun m hm => hbound m (List.mem_cons_of_mem _ hm)) hq
    rw [List.cons_append, queryLoop_cons]
    by_cases hlt : n.key < qstart
    · rw [if_pos hlt, ih]
      simp [List.filter_cons, not_le_of_lt hlt]
    · by_cases hqe : qend < n.key
      · rw [if_neg hlt, if_pos (by simp [hqe])]
        have hfil : ns.filter
            (fun n => decide (qstart ≤ n.key) && decide (n.key ≤ qend)) = [] := by
          rw [List.filter_eq_nil_iff]
          intro m hm
          simp [not_le_of_lt (lt_trans hqe (hpw.1 m hm))]
        simp [List.filter_cons, not_le_of_lt hqe, hfil]
      · have hne : ((ns ++ [t]).isEmpty) = false := by cases ns <;> simp
        rw [if_neg hlt, if_neg (by simp [hqe, hne]), ih]
        simp [List.filter_cons, le_of_not_lt hlt, le_of_not_lt hqe]

lemma queryLoop_isSome (qstart qend : K) :
    ∀ (ns : List (SLNode K V)) (t : SLNode K V), ¬ t.key < qstart →
      (queryLoop qstart qend (ns ++ [t])).isSome
  | [], t => by
    intro ht
    simp [queryLoop, ht]
  | n :: ns, t => by
    intro ht
    have ih := queryLoop_isSome qstart qend ns t ht
    rw [List.cons_append, queryLoop_cons]
    by_cases hlt : n.key < qstart
    · rwa [if_pos hlt]
    · by_cases hbr : (decide (qend < n.key) || (ns ++ [t]).isEmpty) = true
      · rw [if_neg hlt, if_pos hbr]
        rfl
      · rw [if_neg hlt, if_neg hbr]
        simpa using ih

lemma queryLoop_eq_none {qstart qend : K} :
    ∀ (l : List (SLNode K V)), (∀ c ∈ l, c.key < qstart) →
      queryLoop qstart qend l = none
  | [] => by
    intro _
    simp [queryLoop]
  | c :: rest => by
    intro hall
    have := hall c (List.mem_cons_self _ _)
    simp only [queryLoop, if_pos this]
    exact queryLoop_eq_none rest (fun d hd => hall d (List.mem_cons_of_mem _ hd))

/-! ## Further characterization lemmas for the operations -/

lemma succAt_maxKey {s : SkipList K V} (hwf : s.WF) (l : Nat) :
    s.succAt s.maxKey l = some s.tailNode :=
  walkLevel_of_mem (levelList_sorted hwf l) (tailNode_mem_levelList s l) rfl

lemma find_maxKey_not_none {s : SkipList K V} (hwf : s.WF) :
    s.find s.maxKey ≠ some none := by
  rw [SkipList.find]
  cases hml : s.maxLevel - 1 with
  | zero => simp [SkipList.foundLevelAux, succAt_maxKey hwf, SkipList.tailNode]
  | succ l => simp [SkipList.foundLevelAux, succAt_maxKey hwf, SkipList.tailNode]

lemma lt_maxKey_of_find_some_none {s : SkipList K V} {key : K} (hwf : s.WF)
    (h : s.find key = some none) : key < s.maxKey := by
  rcases lt_trichotomy key s.maxKey with hlt | heq | hgt
  · exact hlt
  · exact absurd (heq ▸ h) (find_maxKey_not_none hwf)
  · rw [find_eq_none hwf hgt] at h
    exact absurd h (by simp)

lemma Find_of_absent {s : SkipList K V} {key : K} (hwf : s.WF)
    (hk : key < s.maxKey) (habs : key ∉ s.keys) :
    s.Find key = some (default, false) := by
  rw [SkipList.Find, find_absent hwf hk habs]

/-! ## C3: an erroring decider leaves the map unchanged -/

/-- Claim C3: if the call of the decider `f` made by `Upsert(k, f)` returns a
non-nil error, `Upsert` returns `(false, that error)` and the map is
unchanged: the state — nodes, values, and the operation counter `totalOps` —
is exactly the input state.  The first conjunct is the update case (the key
exists and the decider is called with its current value and `exists = true`);
the second is the insert case (the decider is called with the zero value and
`exists = false`). -/
theorem c3_upsert_decider_error (s : SkipList K V) (key : K)
    (check : UpdateCheck K V E W) (lvl : Nat) (e : E)
    (hwf : s.WF) (hk : key < s.maxKey) :
    (∀ n ∈ s.nodes, n.key = key → check key n.value true = .error e →
      s.Upsert key check lvl = some (s, false, some e, none))
    ∧ (key ∉ s.keys → check key default false = .error e →
      s.Upsert key check lvl = some (s, false, some e, none)) := by
  constructor
  · intro n hn hkey herr
    have hfind := find_present hwf hn hkey hk
    have hsucc := succAt_of_node hwf hn hkey (le_refl n.topLevel)
    simp only [SkipList.Upsert, hfind, hsucc, hkey, herr]
  · intro habs herr
    simp only [SkipList.Upsert, find_absent hwf hk habs, herr]

/-- Concrete instance of the C3 theorem: a decider that always errors, on a
one-element map with an existing and with a fresh key. -/
theorem c3_upsert_decider_error_witness :
    (SkipList.Upsert (K := Nat) (V := Nat)
        ⟨0, 100, 5, [⟨3, 30, 0⟩], 1⟩ 5
        ((fun _ _ _ => Except.error "veto") : UpdateCheck Nat Nat String Unit) 0 =
      some (⟨0, 100, 5, [⟨3, 30, 0⟩], 1⟩, false, some "veto", none))
    ∧ (SkipList.Upsert (K := Nat) (V := Nat)
        ⟨0, 100, 5, [⟨3, 30, 0⟩], 1⟩ 3
        ((fun _ _ _ => Except.error "veto") : UpdateCheck Nat Nat String Unit) 0 =
      some (⟨0, 100, 5, [⟨3, 30, 0⟩], 1⟩, false, some "veto", none)) := by
  constructor
  · exact (c3_upsert_decider_error (W := Unit) ⟨0, 100, 5, [⟨3, 30, 0⟩], 1⟩ 5
      (fun _ _ _ => Except.error "veto") 0 "veto"
      (by refine ⟨?_, ?_, ?_, ?_, ?_⟩ <;> simp) (by simp)).2
      (by simp [SkipList.keys]) rfl
  · exact (c3_upsert_decider_error (W := Unit) ⟨0, 100, 5, [⟨3, 30, 0⟩], 1⟩ 3
      (fun _ _ _ => Except.error "veto") 0 "veto"
      (by refine ⟨?_, ?_, ?_, ?_, ?_⟩ <;> simp) (by simp)).1
      ⟨3, 30, 0⟩ (by simp) rfl rfl

/-! ## C7: range query returns exactly the in-range pairs, sorted -/

/-- Claim C7: for every map state and bounds `lo ≤ hi`, `Query(lo, hi)`
returns exactly the live `(key, value)` pairs whose key `k` satisfies
`lo ≤ k ≤ hi`, in strictly ascending key order with no duplicate keys (the
strict pairwise order on the returned keys gives both).  The bound
`lo ≤ maxKey` keeps the level-0 walk away from the nil pointer past the tail
sentinel (see the C10 theorem); sequentially every linked node is live. -/
theorem c7_query_returns_range (s : SkipList K V) (lo hi : K) (hwf : s.WF)
    (hlo : lo ≤ s.maxKey) (hlh : lo ≤ hi) :
    ∃ ps, s.Query lo hi = some ps
      ∧ (∀ k v, (k, v) ∈ ps ↔ ∃ n ∈ s.nodes, n.key = k ∧ n.value = v ∧ lo ≤ k ∧ k ≤ hi)
      ∧ (ps.map Prod.fst).Pairwise (· < ·) := by
  have hspec := queryLoop_spec lo hi s.nodes s.tailNode hwf.1
    (fun n hn => (hwf.2.1 n hn).2) hlo
  refine ⟨_, hspec, ?_, ?_⟩
  · intro k v
    constructor
    · intro hm
      rcases List.mem_map.mp hm with ⟨n, hn, he⟩
      rcases List.mem_filter.mp hn with ⟨hn2, hp⟩
      simp only [Bool.and_eq_true, decide_eq_true_eq] at hp
      rcases Prod.mk.injEq .. ▸ he with ⟨h1, h2⟩
      exact ⟨n, hn2, h1, h2, h1 ▸ hp.1, h1 ▸ hp.2⟩
    · rintro ⟨n, hn, rfl, rfl, h1, h2⟩
      exact List.mem_map_of_mem _ (List.mem_filter.mpr ⟨hn, by simp [h1, h2]⟩)
  · have hpw : (s.nodes.filter
        (fun n => decide (lo ≤ n.key) && decide (n.key ≤ hi))).Pairwise
          (fun a b => a.key < b.key) :=
      hwf.1.sublist (List.filter_sublist _)
    simpa [List.map_map, List.pairwise_map] using hpw

/-- Concrete instance of the C7 theorem: a three-element map queried on
`[2, 7]`. -/
theorem c7_query_returns_range_witness :
    ∃ ps, SkipList.Query (K := Nat) (V := Nat)
        ⟨0, 100, 5, [⟨2, 20, 1⟩, ⟨5, 50, 0⟩, ⟨9, 90, 2⟩], 3⟩ 2 7 = some ps
      ∧ (∀ k v, (k, v) ∈ ps ↔
          ∃ n ∈ [SLNode.mk 2 20 1, SLNode.mk 5 50 0, SLNode.mk 9 90 2],
            n.key = k ∧ n.value = v ∧ 2 ≤ k ∧ k ≤ 7)
      ∧ (ps.map Prod.fst).Pairwise (· < ·) :=
  c7_query_returns_range ⟨0, 100, 5, [⟨2, 20, 1⟩, ⟨5, 50, 0⟩, ⟨9, 90, 2⟩], 3⟩ 2 7
    (by refine ⟨?_, ?_, ?_, ?_, ?_⟩ <;> simp) (by simp) (by simp)

/-! ## C8: after a successful Remove, Find reports absent until an Upsert -/

/-- Claim C8: (1) `Remove` of an absent key returns not-removed and changes
nothing.  (2) If `Remove(k)` returns `(v, true)`, the key is gone and `Find(k)`
reports absent on the new state.  (3) Absence of `k` is preserved by every
operation except an `Upsert` of `k` itself that succeeds (returns a nil
error) — `Find` is read-only, an `Upsert` of another key or one vetoed by
its decider does not introduce `k`, and `Remove` never introduces a key — so
`Find(k)` keeps reporting absent until some later `Upsert(k, f)` succeeds. -/
theorem c8_remove_then_find_absent (s : SkipList K V) (key : K)
    (hwf : s.WF) (hk : key < s.maxKey) :
    (key ∉ s.keys → s.Remove key = some (s, default, false))
    ∧ (∀ s' v, s.Remove key = some (s', v, true) →
        key ∉ s'.keys ∧ s'.WF ∧ s'.maxKey = s.maxKey
          ∧ s'.Find key = some (default, false))
    ∧ (∀ t : SkipList K V, t.WF → key < t.maxKey → key ∉ t.keys →
        t.Find key = some (default, false)
        ∧ (∀ (k' : K) (check : UpdateCheck K V E W) (lvl : Nat) t' upd res out,
            t.minKey < k' →
            t.Upsert k' check lvl = some (t', upd, res, out) →
            (k' ≠ key ∨ res.isSome) →
            key ∉ t'.keys ∧ t'.WF ∧ t'.maxKey = t.maxKey)
        ∧ (∀ (k' : K) t' v b, t.Remove k' = some (t', v, b) →
            key ∉ t'.keys ∧ t'.WF ∧ t'.maxKey = t.maxKey)) := by
  refine ⟨?_, ?_, ?_⟩
  · intro habs
    rw [SkipList.Remove, find_absent hwf hk habs]
  · intro s' v hrem
    cases hf : s.find key with
    | none => exact absurd (by simpa only [SkipList.Remove, hf] using hrem) (by simp)
    | some flv =>
      cases flv with
      | none => simp only [SkipList.Remove, hf] at hrem; simp at hrem
      | some l =>
        simp only [SkipList.Remove, hf] at hrem
        cases hsc : s.succAt key l with
        | none => exact absurd (by simpa only [hsc] using hrem) (by simp)
        | some victim =>
          simp only [hsc] at hrem
          by_cases htl : victim.topLevel ≠ l
          · rw [if_pos htl] at hrem; simp at hrem
          · rw [if_neg htl] at hrem
            injection hrem with h
            obtain ⟨rfl, -⟩ := Prod.mk.injEq .. ▸ h.symm
            have habs' : key ∉ SkipList.keys
                { s with nodes := removeKey key s.nodes,
                         totalOps := s.totalOps + 1 } :=
              not_mem_keys_removeKey hwf.1
            have hwf' := removeKey_WF key hwf
            exact ⟨habs', hwf', rfl, Find_of_absent hwf' hk habs'⟩
  · intro t htwf htk htabs
    refine ⟨Find_of_absent htwf htk htabs, ?_, ?_⟩
    · intro k' check lvl t' upd res out hmin hup hcond
      cases hf : t.find k' with
      | none => exact absurd (by simpa only [SkipList.Upsert, hf] using hup) (by simp)
      | some flv =>
        cases flv with
        | some l =>
          simp only [SkipList.Upsert, hf] at hup
          cases hsc : t.succAt k' l with
          | none => exact absurd (by simpa only [hsc] using hup) (by simp)
          | some found =>
            simp only [hsc] at hup
            cases hc : check found.key found.value true with
            | error e =>
              simp only [hc] at hup
              injection hup with h
              obtain ⟨rfl, -⟩ := Prod.mk.injEq .. ▸ h.symm
              exact ⟨htabs, htwf, rfl⟩
            | ok p =>
              simp only [hc] at hup
              injection hup with h
              obtain ⟨rfl, -⟩ := Prod.mk.injEq .. ▸ h.symm
              refine ⟨?_, updateValue_WF htwf, rfl⟩
              simpa [SkipList.keys, updateValue_keys] using htabs
        | none =>
          simp only [SkipList.Upsert, hf] at hup
          cases hc : check k' default false with
          | error e =>
            simp only [hc] at hup
            injection hup with h
            obtain ⟨rfl, -⟩ := Prod.mk.injEq .. ▸ h.symm
            exact ⟨htabs, htwf, rfl⟩
          | ok p =>
            simp only [hc, Option.some.injEq, Prod.mk.injEq] at hup
            obtain ⟨h1, h2, h3, h4⟩ := hup
            subst h1
            have hk'k : k' ≠ key := by
              rcases hcond with hcx | hcx
              · exact hcx
              · rw [← h3] at hcx
                simp at hcx
            have hk'abs : k' ∉ t.keys :=
              not_mem_keys_of_find_none htwf (lt_maxKey_of_find_some_none htwf hf) hf
            refine ⟨?_, insertNode_WF htwf hk'abs hmin
              (lt_maxKey_of_find_some_none htwf hf), rfl⟩
            intro hmem
            rcases mem_keys_insertNode (hmem : key ∈ _) with he | hm
            · exact hk'k he.symm
            · exact htabs hm
    · intro k' t' v b hrem
      cases hf : t.find k' with
      | none => exact absurd (by simpa only [SkipList.Remove, hf] using hrem) (by simp)
      | some flv =>
        cases flv with
        | none =>
          simp only [SkipList.Remove, hf] at hrem
          injection hrem with h
          obtain ⟨rfl, -⟩ := Prod.mk.injEq .. ▸ h.symm
          exact ⟨htabs, htwf, rfl⟩
        | some l =>
          simp only [SkipList.Remove, hf] at hrem
          cases hsc : t.succAt k' l with
          | none => exact absurd (by simpa only [hsc] using hrem) (by simp)
          | some victim =>
            simp only [hsc] at hrem
            by_cases htl : victim.topLevel ≠ l
            · rw [if_pos htl] at hrem
              injection hrem with h
              obtain ⟨rfl, -⟩ := Prod.mk.injEq .. ▸ h.symm
              exact ⟨htabs, htwf, rfl⟩
            · rw [if_neg htl] at hrem
              injection hrem with h
              obtain ⟨rfl, -⟩ := Prod.mk.injEq .. ▸ h.symm
              refine ⟨?_, removeKey_WF k' htwf, rfl⟩
              intro hmem
              exact htabs (mem_keys_removeKey hmem)

/-- Concrete instance of the C8 theorem: removing key 5 from a two-element
map, then checking `Find`. -/
theorem c8_remove_then_find_absent_witness :
    SkipList.Remove (K := Nat) (V := Nat)
        ⟨0, 100, 5, [⟨2, 20, 0⟩, ⟨5, 50, 1⟩], 2⟩ 5 =
      some (⟨0, 100, 5, [⟨2, 20, 0⟩], 3⟩, 50, true)
    ∧ SkipList.Find (K := Nat) (V := Nat) ⟨0, 100, 5, [⟨2, 20, 0⟩], 3⟩ 5 =
      some (default, false) := by
  have h := (c8_remove_then_find_absent (E := String) (W := Unit)
    (V := Nat) ⟨0, 100, 5, [⟨2, 20, 0⟩, ⟨5, 50, 1⟩], 2⟩ 5
    (by refine ⟨?_, ?_, ?_, ?_, ?_⟩ <;> simp) (by simp)).2.1
    ⟨0, 100, 5, [⟨2, 20, 0⟩], 3⟩ 50 (by decide)
  exact ⟨by decide, h.2.2.2⟩

/-! ## C10: the tail-sentinel precondition -/

lemma Find_isSome {s : SkipList K V} {key : K} (hk : key ≤ s.maxKey) :
    (s.Find key).isSome := by
  rcases Option.isSome_iff_exists.mp (find_isSome (s := s) hk) with ⟨flv, hf⟩
  cases flv with
  | none => simp [SkipList.Find, hf]
  | some l =>
    rcases Option.isSome_iff_exists.mp (succAt_isSome (s := s) hk l) with ⟨c, hc⟩
    simp [SkipList.Find, hf, hc]

lemma Upsert_isSome {s : SkipList K V} {key : K}
    (check : UpdateCheck K V E W) (lvl : Nat) (hk : key ≤ s.maxKey) :
    (s.Upsert key check lvl).isSome := by
  rcases Option.isSome_iff_exists.mp (find_isSome (s := s) hk) with ⟨flv, hf⟩
  cases flv with
  | none =>
    cases hc : check key default false with
    | error e => simp [SkipList.Upsert, hf, hc]
    | ok p => simp [SkipList.Upsert, hf, hc]
  | some l =>
    rcases Option.isSome_iff_exists.mp (succAt_isSome (s := s) hk l) with ⟨c, hc⟩
    cases hcc : check c.key c.value true with
    | error e => simp [SkipList.Upsert, hf, hc, hcc]
    | ok p => simp [SkipList.Upsert, hf, hc, hcc]

lemma Remove_isSome {s : SkipList K V} {key : K} (hk : key ≤ s.maxKey) :
    (s.Remove key).isSome := by
  rcases Option.isSome_iff_exists.mp (find_isSome (s := s) hk) with ⟨flv, hf⟩
  cases flv with
  | none => simp [SkipList.Remove, hf]
  | some l =>
    rcases Option.isSome_iff_exists.mp (succAt_isSome (s := s) hk l) with ⟨c, hc⟩
    by_cases htl : c.topLevel ≠ l
    · simp [SkipList.Remove, hf, hc, htl]
    · simp [SkipList.Remove, hf, hc, htl]

lemma queryOnce_isSome {s : SkipList K V} {qstart qend : K}
    (hq : qstart ≤ s.maxKey) : (s.queryOnce qstart qend).isSome :=
  queryLoop_isSome qstart qend s.nodes s.tailNode (not_lt_of_le hq)

lemma queryOnce_eq_none {s : SkipList K V} {qstart qend : K} (hwf : s.WF)
    (hq : s.maxKey < qstart) : s.queryOnce qstart qend = none := by
  refine queryLoop_eq_none _ ?_
  intro c hc
  rcases List.mem_append.mp hc with h | h
  · exact lt_trans (hwf.2.1 c h).2 hq
  · rw [List.mem_singleton] at h
    exact h ▸ hq

/-- Claim C10: every skip-list operation (`Find`, `Upsert`, `Remove`, `Query`)
avoids dereferencing a nil forward pointer only under the unstated
precondition that its key argument stays below the tail-sentinel key
`maxKey` — for the string instantiation used by every collection,
`STRING_MAX = string(rune(256))`, UTF-8 bytes `[196, 128]`.  First conjunct:
under `k < maxKey` (and, for `Query`, a lower bound below `maxKey`) every
operation completes.  Second: for every key above `maxKey` — for example any
name starting with a character above U+0100 — the `find` walk (and the
level-0 `query` walk) runs past the tail sentinel and dereferences nil
(`none` in the model).  Third: the concrete key `[196, 129]` (the bytes of
"ā", U+0101) exceeds `STRING_MAX` and crashes `find`. -/
theorem c10_sentinel_precondition {V : Type} [Inhabited V]
    (s : SkipList GoStr V) (hwf : s.WF) (hmax : s.maxKey = STRING_MAX) :
    (∀ k : GoStr, k < s.maxKey →
        (s.find k).isSome
      ∧ (s.Find k).isSome
      ∧ (∀ (E W : Type) (check : UpdateCheck GoStr V E W) (lvl : Nat),
          (s.Upsert k check lvl).isSome)
      ∧ (s.Remove k).isSome
      ∧ (∀ hi, (s.Query k hi).isSome))
    ∧ (∀ k : GoStr, s.maxKey < k →
        s.find k = none ∧ (∀ hi, s.Query k hi = none))
    ∧ STRING_MAX < [196, 129]
    ∧ s.find [196, 129] = none := by
  have hcrash : ∀ k : GoStr, s.maxKey < k →
      s.find k = none ∧ (∀ hi, s.Query k hi = none) := by
    intro k hkk
    exact ⟨find_eq_none hwf hkk, fun hi => queryOnce_eq_none hwf hkk⟩
  refine ⟨?_, hcrash, by decide, ?_⟩
  · intro k hkk
    have hk : k ≤ s.maxKey := le_of_lt hkk
    exact ⟨find_isSome hk, Find_isSome hk,
      fun _ _ check lvl => Upsert_isSome check lvl hk, Remove_isSome hk,
      fun hi => queryOnce_isSome hk⟩
  · exact (hcrash [196, 129] (by rw [hmax]; decide)).1

/-- Concrete instance of the C10 theorem: on a fresh skip list over the
string sentinels, `find` of a name below `STRING_MAX` succeeds while `find`
of the two-byte name `[196, 129]` (a single character above U+0100)
dereferences nil. -/
theorem c10_sentinel_precondition_witness :
    (SkipList.find (V := Nat)
      (SkipList.new STRING_MIN STRING_MAX 5) (asciiBytes "doc1")).isSome
    ∧ SkipList.find (V := Nat)
      (SkipList.new STRING_MIN STRING_MAX 5) [196, 129] = none := by
  have h := c10_sentinel_precondition (V := Nat)
    (SkipList.new STRING_MIN STRING_MAX 5)
    (by refine ⟨?_, ?_, ?_, ?_, ?_⟩ <;> simp [SkipList.new] <;> decide) rfl
  exact ⟨(h.1 (asciiBytes "doc1") (by decide)).1, h.2.2.2⟩

/-! ## C1: conditional PUT with a mismatched timestamp -/

/-- The fixture for C1: a collection holding one document named `doc1` whose
`lastModifiedAt` is 100. -/
def c1Doc : Document :=
  ⟨⟨"/doc1", .obj [("prop", .num 100)], ⟨"alice", 50, "alice", 100⟩⟩, []⟩

/-- The incoming document of the C1 conditional PUT. -/
def c1NewDoc : Document :=
  ⟨⟨"/doc1", .obj [("prop", .num 200)], ⟨"bob", 1000, "bob", 1000⟩⟩, []⟩

/-- The C1 collection state. -/
def c1Coll : Collection :=
  ⟨⟨STRING_MIN, STRING_MAX, 5, [⟨asciiBytes "doc1", c1Doc, 0⟩], 1⟩, []⟩

/-- Claim C1, evaluated at the failing input: a `PUT` of `doc1` with
`timestamp=5` while the stored document's `lastModifiedAt` is 100.  The
decider vetoes with the error text `"bad timestamp match"`, the stored
document (and the whole map) is left unchanged and no event is sent — but
the handler's switch case reads `"Bad timestamp"`, so the error falls to the
default branch and `http.Error` writes status 500, not the 412 the claim
requires (the matching case would write 404; no path writes 412).  The
missing `return` then appends the `{ uri }` body after the error text; the
first `WriteHeader` has already fixed the status at 500. -/
theorem c1_timestamp_mismatch_eval :
    Collection.DocumentPut c1Coll Response.empty "/v1/db1/doc1"
      (TsParam.val 5) (asciiBytes "doc1") c1NewDoc 1000 0 =
    some ({ status := some 500,
            headers := [("Location", "/v1/db1/doc1")],
            body := [.text "PUT() error bad timestamp match",
                     .putOutputMsg "/v1/db1/doc1"] },
          c1Coll, []) := rfl

/-! ## C2: PUT of an existing top-level database -/

/-- The C2 collection holder already containing a database `db1`. -/
def c2Holder : CollectionHolder :=
  ⟨⟨STRING_MIN, STRING_MAX, 5, [⟨asciiBytes "db1", Collection.new, 0⟩], 1⟩⟩

/-- Claim C2, evaluated at the failing input: `PUT /v1/db1` when `db1`
exists.  The decider's error text is `"database already exists"` but the
switch case reads `"Database already exists"` (capital D), so the handler
falls to the default branch and responds 500, not the claimed 400; the set
of databases is unchanged.  The second conjunct is the claim's creation
half, which the code does satisfy: on a fresh holder the `PUT` stores the
empty collection and responds 201 with the `{ uri }` body. -/
theorem c2_duplicate_database_eval :
    (CollectionHolder.CollectionPut c2Holder Response.empty "/v1/db1"
        (asciiBytes "db1") Collection.new 0 =
      some ({ status := some 500, headers := [],
              body := [.text "PUT() error database already exists"] }, c2Holder))
    ∧ (CollectionHolder.CollectionPut CollectionHolder.new Response.empty "/v1/db1"
        (asciiBytes "db1") Collection.new 0 =
      some ({ status := some 201, headers := [("Location", "/v1/db1")],
              body := [.putOutputMsg "/v1/db1"] },
        ⟨⟨STRING_MIN, STRING_MAX, 5, [⟨asciiBytes "db1", Collection.new, 0⟩], 1⟩⟩)) :=
  ⟨rfl, rfl⟩

/-! ## C4: terminal ArrayAdd does not deduplicate -/

/-- Claim C4, refuted at a concrete input: the array under `/a` already
contains an element deeply equal to the patch value `100`, yet the terminal
`ArrayAdd` appends it anyway — the code's branch is a plain
`append(s, p.patch.Value)` with no deep-equality scan — so the result holds
the value twice, where the claim requires no change and at most one
occurrence. -/
theorem c4_arrayadd_dedup_counterexample :
    jsonEqual (.num 100) (.num 100) = true
    ∧ ApplyPatch (.obj [("a", .arr [.num 100])])
        ⟨"ArrayAdd", "/a".data, .num 100⟩ =
      .ok (.obj [("a", .arr [.num 100, .num 100])])
    ∧ List.countP (fun x => jsonEqual x (.num 100))
        ([.num 100, .num 100] : List JSON) = 2 := by
  refine ⟨by simp [jsonEqual], ?_, by simp [jsonEqual]⟩
  simp [ApplyPatch, accept, visitMap, visitMapGo, visitSlice, splitSeg]

/-- Claim C4 as amended: a terminal `ArrayAdd` with value `v` appends `v`
unconditionally, whether or not a deeply equal element is present; hence
applying the same `ArrayAdd` twice appends the value twice. -/
theorem c4_arrayadd_always_appends (s : List JSON) (v : JSON) :
    visitSlice "ArrayAdd" v [] s = .ok (.arr (s ++ [v]))
    ∧ ApplyPatch (.obj [("a", .arr s)]) ⟨"ArrayAdd", "/a".data, v⟩ =
      .ok (.obj [("a", .arr (s ++ [v]))])
    ∧ ApplyPatch (.obj [("a", .arr (s ++ [v]))]) ⟨"ArrayAdd", "/a".data, v⟩ =
      .ok (.obj [("a", .arr (s ++ [v] ++ [v]))]) := by
  refine ⟨?_, ?_, ?_⟩ <;>
    simp [ApplyPatch, accept, visitMap, visitMapGo, visitSlice, splitSeg]

/-! ## C5: ArrayRemove mutates the input document in place -/

/-- Claim C5, evaluated at the failing input: `ArrayRemove` of value `1`
from the array `[1, 2]`.  The returned value is correct (`[2]` under `/a`),
but `append(s[:0], s[1:]...)` writes through the shared backing array: after
the call the backing holds `[2, 2]`, and the original slice header — which
the input document still contains, with length 2 — now denotes `[2, 2]`
instead of its pre-call contents `[1, 2]`.  The input is therefore mutated
on success, where the claim requires it untouched. -/
theorem c5_arrayremove_mutation_eval :
    ApplyPatch (.obj [("a", .arr [.num 1, .num 2])])
        ⟨"ArrayRemove", "/a".data, .num 1⟩ =
      .ok (.obj [("a", .arr [.num 2])])
    ∧ sliceArrayRemoveStore [.num 1, .num 2] 2 (.num 1) = ([.num 2, .num 2], 1)
    ∧ GoSlice.view (⟨[.num 1, .num 2], 2⟩ : GoSlice JSON) = [.num 1, .num 2]
    ∧ GoSlice.view (⟨[.num 2, .num 2], 2⟩ : GoSlice JSON) = [.num 2, .num 2]
    ∧ ([.num 2, .num 2] : List JSON) ≠ [.num 1, .num 2] := by
  refine ⟨?_, ?_, rfl, rfl, by simp⟩
  · simp [ApplyPatch, accept, visitMap, visitMapGo, visitSlice, splitSeg,
      arrayRemoveFirst, jsonEqual]
  · simp [sliceArrayRemoveStore, firstEqIdx, jsonEqual, goAppendInPlace,
      overwriteFrom]

/-! ## C6: a failing patch list still mutates the stored document -/

/-- The body of the C6 document: an object holding the array `[10, 20]`. -/
def c6DocBody : JSON := .obj [("a", .arr [.num 10, .num 20])]

/-- The C6 stored document. -/
def c6Doc : Document := ⟨⟨"/doc1", c6DocBody, ⟨"alice", 50, "alice", 100⟩⟩, []⟩

/-- The C6 collection state. -/
def c6Coll : Collection :=
  ⟨⟨STRING_MIN, STRING_MAX, 5, [⟨asciiBytes "doc1", c6Doc, 0⟩], 1⟩, []⟩

/-- The first C6 patch: a succeeding `ArrayRemove` of 10 from `/a`. -/
def c6Patch1 : Patch := ⟨"ArrayRemove", "/a".data, .num 10⟩

/-- The second C6 patch: an `ObjectAdd` through the missing key `b`, which
fails. -/
def c6Patch2 : Patch := ⟨"ObjectAdd", "/b/c".data, .num 5⟩

/-- Claim C6, evaluated at the failing input: patches
`[ArrayRemove /a 10, ObjectAdd /b/c 5]` against the stored body
`{a: [10, 20]}`.  The sequencing behaves as claimed — the patches run
left-to-right, the second fails, the reply carries `patchFailed = true` with
the first failure's message, `DocumentPatch` answers 400 and performs no
overwrite, no re-insert and no notification.  But the claim's "the stored
document is unchanged" is false: the first patch's
`append(s[:0], s[1:]...)` already wrote through the stored array's backing —
afterwards the backing holds `[20, 20]` and the stored document's slice
header (length 2) denotes `[20, 20]`, not `[10, 20]`. -/
theorem c6_patch_failure_mutation_eval :
    ApplyPatch c6DocBody c6Patch1 = .ok (.obj [("a", .arr [.num 20])])
    ∧ Document.applyPatches c6Doc [c6Patch1, c6Patch2] (fun _ => none) =
      (⟨"", true, "Error applying patches: Missing key \"b\" in path"⟩, none)
    ∧ Collection.DocumentPatch c6Coll Response.empty "/v1/db1/doc1"
        (asciiBytes "doc1") (fun _ => none) "bob" [c6Patch1, c6Patch2] 1000 0 =
      some ({ status := some 400, headers := [],
              body := [.patchRespMsg ⟨"/v1/db1/doc1", true,
                "Error applying patches: Missing key \"b\" in path"⟩] },
        c6Coll, [])
    ∧ sliceArrayRemoveStore [.num 10, .num 20] 2 (.num 10) =
      ([.num 20, .num 20], 1)
    ∧ GoSlice.view (⟨[.num 20, .num 20], 2⟩ : GoSlice JSON) ≠ [.num 10, .num 20] := by
  have h1 : ApplyPatch c6DocBody c6Patch1 = .ok (.obj [("a", .arr [.num 20])]) := by
    simp [ApplyPatch, accept, visitMap, visitMapGo, visitSlice, splitSeg,
      arrayRemoveFirst, jsonEqual, c6DocBody, c6Patch1]
  have h2 : ApplyPatch (.obj [("a", .arr [.num 20])]) c6Patch2 =
      .error "Missing key \"b\" in path" := by
    simp [ApplyPatch, accept, visitMap, visitMapGo, visitSlice, splitSeg,
      c6Patch2]
  have h3 : Document.applyPatches c6Doc [c6Patch1, c6Patch2] (fun _ => none) =
      (⟨"", true, "Error applying patches: Missing key \"b\" in path"⟩, none) := by
    simp only [Document.applyPatches, Document.applyPatchesLoop, c6Doc, h1, h2]
    rfl
  refine ⟨h1, h3, ?_, ?_, by simp [GoSlice.view]⟩
  · have hfind : (c6Coll.documents.Find (asciiBytes "doc1")) =
        some (c6Doc, true) := rfl
    simp only [Collection.DocumentPatch, hfind, h3]
    simp [Response.writeHeader, Response.write, Response.empty]
  · simp [sliceArrayRemoveStore, firstEqIdx, jsonEqual, goAppendInPlace,
      overwriteFrom]

/-! ## C9: the subscribe interval is not applied to later events -/

/-- The C9 collection after the subscribe step: no documents, one
subscriber (id 0) registered through `CollectionGet` with
`interval=[a,z]` — the code stores only the subscriber, not the interval. -/
def c9Coll1 : Collection := ⟨Collection.new.documents, [0]⟩

/-- The document whose name `zz` lies outside the subscriber's
interval `[a, z]`. -/
def c9Doc : Document :=
  ⟨⟨"/zz", .obj [("prop", .num 1)], ⟨"bob", 1000, "bob", 1000⟩⟩, []⟩

/-- Claim C9, refuted at a concrete input: a subscriber registers on an
empty collection with `interval=[a,z]` (first conjunct: the interval parses
to the query bounds `a`/`z`, the subscriber is recorded with no interval and
receives an empty snapshot).  A later `PUT` of a document named `zz` — whose
name is outside `[a, z]`, third conjunct — nevertheless delivers an update
event to that subscriber (second conjunct), where the claim requires that no
event be delivered. -/
theorem c9_interval_ignored_counterexample :
    Collection.CollectionGet Collection.new Response.empty
        (asciiBytes "[a,z]") "subscribe" 0 =
      some (Response.empty, c9Coll1, [])
    ∧ getInterval (asciiBytes "[a,z]") = (asciiBytes "a", asciiBytes "z")
    ∧ Collection.DocumentPut c9Coll1 Response.empty "/v1/db1/zz"
        TsParam.absent (asciiBytes "zz") c9Doc 1000 0 =
      some ({ status := some 201,
              headers := [("Location", "/v1/db1/zz")],
              body := [.putOutputMsg "/v1/db1/zz"] },
            ⟨⟨STRING_MIN, STRING_MAX, 5, [⟨asciiBytes "zz", c9Doc, 0⟩], 1⟩, [0]⟩,
            [(0, Event.update (Msg.docMsg c9Doc.output))])
    ∧ ¬ asciiBytes "zz" ≤ asciiBytes "z" := by
  exact ⟨rfl, rfl, rfl, by decide⟩

/-- The two branches of a completed `Upsert`, phrased through the single
call it makes to the decider: either the key exists and the decider is
consulted with its current value, or it is absent and consulted with the
zero value. -/
lemma Upsert_branches {s : SkipList K V} {key : K}
    (check : UpdateCheck K V E W) (lvl : Nat) (hwf : s.WF)
    (hk : key < s.maxKey) :
    (∃ n ∈ s.nodes, n.key = key ∧
      s.Upsert key check lvl =
        (match check key n.value true with
         | .error e => some (s, false, some e, none)
         | .ok (newV, out) =>
            some ({ s with nodes := updateValue key newV s.nodes,
                           totalOps := s.totalOps + 1 }, true, none, some out)))
    ∨ (key ∉ s.keys ∧
      s.Upsert key check lvl =
        (match check key default false with
         | .error e => some (s, false, some e, none)
         | .ok (newV, out) =>
            some ({ s with nodes := insertNode key newV (min lvl (s.maxLevel - 1)) s.nodes,
                           totalOps := s.totalOps + 1 }, false, none, some out))) := by
  by_cases hmem : key ∈ s.keys
  · rcases exists_node_of_mem_keys hmem with ⟨n, hn, hkey⟩
    refine Or.inl ⟨n, hn, hkey, ?_⟩
    have hfind := find_present hwf hn hkey hk
    have hsucc := succAt_of_node hwf hn hkey (le_refl n.topLevel)
    cases hc : check key n.value true with
    | error e => simp only [SkipList.Upsert, hfind, hsucc, hkey, hc]
    | ok p => simp only [SkipList.Upsert, hfind, hsucc, hkey, hc]
  · refine Or.inr ⟨hmem, ?_⟩
    have hfind := find_absent hwf hk hmem
    cases hc : check key default false with
    | error e => simp only [SkipList.Upsert, hfind, hc]
    | ok p => simp only [SkipList.Upsert, hfind, hc]

/-- Claim C9 as amended: the interval supplied at subscribe time bounds only
the initial snapshot (it becomes the bounds of the `Query` whose results are
pushed to the new subscriber); it is not recorded with the subscriber, and a
subsequent successful `PUT` — here an unconditional one — delivers its
update event to every registered collection subscriber whatever the
document's name. -/
theorem c9_put_update_delivered_to_every_subscriber
    (c : Collection) (w : Response) (urlPath : String) (path : GoStr)
    (newDoc : Document) (now : Int) (lvl : Nat) (sub : Nat)
    (hwf : c.documents.WF) (hk : path < c.documents.maxKey)
    (hsub : sub ∈ c.subscribers) :
    ∃ w' c' evs msg,
      c.DocumentPut w urlPath TsParam.absent path newDoc now lvl =
        some (w', c', evs)
      ∧ (sub, Event.update msg) ∈ evs := by
  rcases Upsert_branches (c.docUpsert (-1) newDoc now) lvl hwf hk with
    ⟨n, hn, hkey, hup⟩ | ⟨habs, hup⟩
  · have hc : c.docUpsert (-1) newDoc now path n.value true =
        .ok (n.value.overwrite newDoc.output.doc newDoc.output.meta.createdBy now,
          (n.value.overwrite newDoc.output.doc
              newDoc.output.meta.createdBy now).subscribers.map
            (fun i => (i, Event.update (n.value.overwrite newDoc.output.doc
              newDoc.output.meta.createdBy now).getJSONBody))
          ++ c.subscribers.map
            (fun i => (i, Event.update (n.value.overwrite newDoc.output.doc
              newDoc.output.meta.createdBy now).getJSONBody))) := by
      simp [Collection.docUpsert]
    rw [hc] at hup
    have hup2 : c.documents.Upsert path (c.docUpsert (-1) newDoc now) lvl =
        some ({ c.documents with
            nodes := updateValue path
              (n.value.overwrite newDoc.output.doc newDoc.output.meta.createdBy now)
              c.documents.nodes,
            totalOps := c.documents.totalOps + 1 }, true, none,
          some ((n.value.overwrite newDoc.output.doc
              newDoc.output.meta.createdBy now).subscribers.map
            (fun i => (i, Event.update (n.value.overwrite newDoc.output.doc
              newDoc.output.meta.createdBy now).getJSONBody))
          ++ c.subscribers.map
            (fun i => (i, Event.update (n.value.overwrite newDoc.output.doc
              newDoc.output.meta.createdBy now).getJSONBody)))) := hup
    refine ⟨((w.setHeader "Location" urlPath).writeHeader 200).write
        (.putOutputMsg urlPath),
      { c with documents := { c.documents with
          nodes := updateValue path
            (n.value.overwrite newDoc.output.doc newDoc.output.meta.createdBy now)
            c.documents.nodes,
          totalOps := c.documents.totalOps + 1 } },
      (n.value.overwrite newDoc.output.doc
          newDoc.output.meta.createdBy now).subscribers.map
        (fun i => (i, Event.update (n.value.overwrite newDoc.output.doc
          newDoc.output.meta.createdBy now).getJSONBody))
      ++ c.subscribers.map
        (fun i => (i, Event.update (n.value.overwrite newDoc.output.doc
          newDoc.output.meta.createdBy now).getJSONBody)),
      (n.value.overwrite newDoc.output.doc
        newDoc.output.meta.createdBy now).getJSONBody, ?_, ?_⟩
    · simp only [Collection.DocumentPut, hup2, Option.getD_some]
      simp
    · exact List.mem_append_right _
        (List.mem_map.mpr ⟨sub, hsub, rfl⟩)
  · have hc : c.docUpsert (-1) newDoc now path default false =
        .ok (newDoc, c.subscribers.map
          (fun i => (i, Event.update newDoc.getJSONBody))) := by
      simp [Collection.docUpsert]
    rw [hc] at hup
    have hup2 : c.documents.Upsert path (c.docUpsert (-1) newDoc now) lvl =
        some ({ c.documents with
            nodes := insertNode path newDoc (min lvl (c.documents.maxLevel - 1))
              c.documents.nodes,
            totalOps := c.documents.totalOps + 1 }, false, none,
          some (c.subscribers.map
            (fun i => (i, Event.update newDoc.getJSONBody)))) := hup
    refine ⟨((w.setHeader "Location" urlPath).writeHeader 201).write
        (.putOutputMsg urlPath),
      { c with documents := { c.documents with
          nodes := insertNode path newDoc (min lvl (c.documents.maxLevel - 1))
            c.documents.nodes,
          totalOps := c.documents.totalOps + 1 } },
      c.subscribers.map (fun i => (i, Event.update newDoc.getJSONBody)),
      newDoc.getJSONBody, ?_, ?_⟩
    · simp only [Collection.DocumentPut, hup2, Option.getD_some]
      simp
    · exact List.mem_map.mpr ⟨sub, hsub, rfl⟩

/-- Concrete instance of the amended C9 theorem: the subscriber recorded in
`c9Coll1` (registered with `interval=[a,z]`) receives an update event for a
`PUT` of the out-of-interval name `zz`. -/
theorem c9_put_update_delivered_witness :
    ∃ w' c' evs msg,
      Collection.DocumentPut c9Coll1 Response.empty "/v1/db1/zz"
          TsParam.absent (asciiBytes "zz") c9Doc 1000 0 =
        some (w', c', evs)
      ∧ ((0 : Nat), Event.update msg) ∈ evs :=
  c9_put_update_delivered_to_every_subscriber c9Coll1 Response.empty
    "/v1/db1/zz" (asciiBytes "zz") c9Doc 1000 0 0
    (by refine ⟨?_, ?_, ?_, ?_, ?_⟩ <;> simp [c9Coll1, Collection.new, SkipList.new] <;> decide)
    (by decide) (by simp [c9Coll1])

end OwlDB
